import Mathlib

/-!
# sentry-datasource: the Sentry API client and the query dispatcher

A shallow embedding of `pkg/sentry/sentry.go` (`FindNextLink`, `ParseBody`,
`SentryClient.FetchPaginated`, `SentryClient.Fetch`) and of
`pkg/plugin/handlers_query.go` (`GetQuery`, `QueryData`,
`SentryDatasource.QueryData`), followed by the theorems about them.

Conventions of the embedding.

* A Go `string` is the list of its Unicode code points (`GoString`); the empty
  string is `[]`.
* A Go `error` is a `GoError`; a nil error is `none : Option GoError`.
* Library code the sources call into (the HTTP transport, `encoding/json`,
  the frame library) and helpers of the plugin package that live in other
  files are parameters: `HTTPClient`, `JSONDecoder`, `PluginEnv`, `Client`.
* The loop of `FetchPaginated` is driven by a fuel counter: `none` means that
  the loop has not returned within that many tests of its condition.
-/

namespace Sentry

/-- A Go string, as the list of its code points. -/
abbrev GoString := List Char

/-- A Go error value: one handed over by a library (transport, JSON decoder,
a package-level sentinel) or one made by `errors.New`. -/
inductive GoError where
  | external (msg : GoString)
  | errorsNew (msg : GoString)
  deriving DecidableEq, Repr

/-- The method `Error()` of a Go error: its message. -/
def GoError.Error : GoError → GoString
  | .external msg => msg
  | .errorsNew msg => msg

/-! ## Library functions used by `sentry.go` -/

/-- Go `strings.Split(s, sep)` for a separator of one character (the source
splits on `","`): the pieces between the occurrences of `sep`, one more piece
than there are occurrences. -/
def Split : GoString → Char → List GoString
  | [], _ => [[]]
  | c :: cs, sep =>
    if c = sep then [] :: Split cs sep
    else
      match Split cs sep with
      | [] => [[c]]
      | piece :: pieces => (c :: piece) :: pieces

/-- Go `strings.HasPrefix(s, p)`. -/
def HasPrefix : GoString → GoString → Bool
  | _, [] => true
  | [], _ :: _ => false
  | c :: cs, p :: ps => c = p && HasPrefix cs ps

/-- Go `strings.Contains(s, sub)`: `sub` occurs in `s` at some position. -/
def Contains : GoString → GoString → Bool
  | [], sub => HasPrefix [] sub
  | c :: cs, sub => HasPrefix (c :: cs) sub || Contains cs sub

/-- Go `unicode.IsSpace`. -/
def isSpace (c : Char) : Bool :=
  c = '\t' || c = '\n' || c = Char.ofNat 0x0B || c = Char.ofNat 0x0C || c = '\r' || c = ' '
    || c = Char.ofNat 0x85 || c = Char.ofNat 0xA0 || c = Char.ofNat 0x1680
    || (0x2000 ≤ c.toNat && c.toNat ≤ 0x200A)
    || c = Char.ofNat 0x2028 || c = Char.ofNat 0x2029 || c = Char.ofNat 0x202F
    || c = Char.ofNat 0x205F || c = Char.ofNat 0x3000

/-- Go `strings.TrimSpace`: drop the white space at both ends. -/
def TrimSpace (s : GoString) : GoString :=
  ((s.dropWhile isSpace).reverse.dropWhile isSpace).reverse

/-- Go `fmt.Sprintf("%s %s", a, b)`. -/
def Sprintf_s_s (a b : GoString) : GoString := a ++ ' ' :: b

/-! ### The pattern `<(https?://.*)>`

`regexp.MustCompile("<(https?://.*)>").FindStringSubmatch` under Go's
leftmost-first semantics: the match starts at the leftmost position where one
exists, and at that position the greedy operators `?` and `.*` take as much
as they can while the rest of the pattern still matches. -/

/-- Match a literal at the head of the input; the rest of the input. -/
def matchLit : GoString → GoString → Option GoString
  | [], s => some s
  | _ :: _, [] => none
  | p :: ps, c :: cs => if c = p then matchLit ps cs else none

/-- The tail `.*>` of the pattern, giving the text taken by `.*`. At a character
`c` the greedy star first lets `.` take `c`, which it can when `c` is no
newline, and goes on; when that fails the star stops and `c` has to be the
`>`. So the text taken is the longest newline-free prefix of the input that is
followed by `>`. -/
def matchDotStarGt : GoString → Option GoString
  | [] => none
  | c :: cs =>
    let stop : Option GoString := if c = '>' then some [] else none
    if c = '\n' then stop
    else
      match matchDotStarGt cs with
      | some taken => some (c :: taken)
      | none => stop

/-- The part `s?://.*>` after `<http`: the optional `s` is tried first. The
result is the text of `s?://.*`. -/
def matchSchemeTail (s : GoString) : Option GoString :=
  let withS : Option GoString :=
    match matchLit ['s'] s with
    | some s1 =>
      match matchLit [':', '/', '/'] s1 with
      | some s2 => (matchDotStarGt s2).map (fun taken => 's' :: ':' :: '/' :: '/' :: taken)
      | none => none
    | none => none
  match withS with
  | some g => some g
  | none =>
    match matchLit [':', '/', '/'] s with
    | some s2 => (matchDotStarGt s2).map (fun taken => ':' :: '/' :: '/' :: taken)
    | none => none

/-- The whole pattern anchored at the head of the input: the text of group 1. -/
def matchHere (s : GoString) : Option GoString :=
  match matchLit ['<', 'h', 't', 't', 'p'] s with
  | some s1 => (matchSchemeTail s1).map (fun g => 'h' :: 't' :: 't' :: 'p' :: g)
  | none => none

/-- The text of group 1 of the leftmost match. -/
def findGroup : GoString → Option GoString
  | [] => matchHere []
  | c :: cs =>
    match matchHere (c :: cs) with
    | some g => some g
    | none => findGroup cs

/-- The call `re.FindStringSubmatch(link)` for `re = <(https?://.*)>`: the slice
holding the whole match and group 1, or the nil slice when nothing matches. -/
def FindStringSubmatch (link : GoString) : List GoString :=
  match findGroup link with
  | some g => ['<' :: (g ++ ['>']), g]
  | none => []

/-! ## `net/http` values -/

/-- Go `http.Header`: keys with their values. -/
abbrev Header := List (GoString × List GoString)

/-- Go `Header.Get(key)` for a key in canonical form, as `"Link"` is: the first
value of the key, the empty string when there is none. -/
def Header.Get (h : Header) (key : GoString) : GoString :=
  match h.lookup key with
  | some (v :: _) => v
  | _ => []

/-- Go `http.Response`, with the fields the client reads. `Body` is the state of
the body stream. -/
structure Response (Body : Type) where
  StatusCode : Int
  Status : GoString
  Header : Header
  Body : Body

/-- Go `http.StatusOK`. -/
def StatusOK : Int := 200

/-! ## `sentry.go` -/

/-- The `for _, link := range cutLinks` loop of `FindNextLink`. -/
def FindNextLink.scan (previous : GoString) : List GoString → GoString
  | [] => []
  | link :: cutLinks =>
    if Contains link "next".toList then
      let matched := FindStringSubmatch link
      if matched.length ≥ 2 ∧ matched.getD 1 [] ≠ previous then
        matched.getD 1 []
      else FindNextLink.scan previous cutLinks
    else FindNextLink.scan previous cutLinks

/-- Source `FindNextLink(res, previous)`. -/
def FindNextLink {Body : Type} (res : Response Body) (previous : GoString) : GoString :=
  let links := res.Header.Get "Link".toList
  if links ≠ [] then
    FindNextLink.scan previous (Split links ',')
  else []

/-- Source `SentryErrorResponse`. -/
structure SentryErrorResponse where
  Detail : GoString
  deriving DecidableEq, Repr

/-- The transport `sc.sentryHttpClient`: `Do` sends the GET request for a URL
in a state of the outside world and gives the response or the transport's
error, and the next state of the world. -/
structure HTTPClient (World Body : Type) where
  Do : GoString → World → Except GoError (Response Body) × World

/-- Source `SentryClient`. -/
structure SentryClient (World Body : Type) where
  BaseURL : GoString
  OrgSlug : GoString
  authToken : GoString
  sentryHttpClient : HTTPClient World Body

/-- The calls `json.NewDecoder(res.Body).Decode(&x)` of the source, one field
for each type of `x`: a fresh decoder reads one JSON value off the body stream
into `x`. Each takes the stream and the value `x` holds before the call, and
gives the value `x` holds after it or the decoder's error, and the stream after
the call. `decodeItems` is for `x : []AnyType`, `decodeOut` for the caller's
`out` of `Fetch`, `decodeError` for `x : SentryErrorResponse`. -/
structure JSONDecoder (Body Item Out : Type) where
  decodeItems : Body → List Item → Except GoError (List Item) × Body
  decodeOut : Body → Out → Except GoError Out × Body
  decodeError : Body → SentryErrorResponse → Except GoError SentryErrorResponse × Body

/-- Source `ParseBody(res, &lastOut)` as `FetchPaginated` calls it: decode the
body into the slice, give back the decoder's error if there is one. -/
def ParseBody {Body Item Out : Type} (json : JSONDecoder Body Item Out) (body : Body)
    (out : List Item) : Except GoError (List Item) × Body :=
  match json.decodeItems body out with
  | (.error err, body1) => (.error err, body1)
  | (.ok out1, body1) => (.ok out1, body1)

/-- What a run of `FetchPaginated` leaves behind: the error it returns (`none`
is nil), the value of its local slice `out` at the return (on a decoder error,
the value before the failed call), and the state of the world after its
requests. -/
structure PaginatedResult (World Item : Type) where
  err : Option GoError
  out : List Item
  world : World
  deriving DecidableEq, Repr

/-- The loop `for url != ""` of `FetchPaginated`. Each test of the loop
condition takes one unit of fuel; `none` when the fuel runs out before the
function returns. -/
def FetchPaginated.loop {World Body Item Out : Type} (json : JSONDecoder Body Item Out)
    (sc : SentryClient World Body) (emptyOut : List Item) :
    Nat → GoString → List Item → World → Option (PaginatedResult World Item)
  | 0, _, _, _ => none
  | fuel + 1, url, out, w =>
    if url ≠ [] then
      let lastOut := emptyOut
      match sc.sentryHttpClient.Do url w with
      | (.error err, w1) => some ⟨some err, out, w1⟩
      | (.ok res, w1) =>
        if res.StatusCode = StatusOK then
          match json.decodeItems res.Body out with
          | (.error err, _) => some ⟨some err, out, w1⟩
          | (.ok out1, body1) =>
            if res.StatusCode = StatusOK then
              match ParseBody json body1 lastOut with
              | (.error err, _) => some ⟨some err, out1, w1⟩
              | (.ok lastOut1, _) =>
                let url1 := FindNextLink res url
                let out2 := out1 ++ lastOut1
                FetchPaginated.loop json sc emptyOut fuel url1 out2 w1
            else
              match json.decodeError body1 ⟨[]⟩ with
              | (.error err, _) =>
                let errorMesage := TrimSpace (Sprintf_s_s res.Status err.Error)
                some ⟨some (.errorsNew errorMesage), out1, w1⟩
              | (.ok errResponse, _) =>
                let errorMesage := TrimSpace (Sprintf_s_s res.Status errResponse.Detail)
                some ⟨some (.errorsNew errorMesage), out1, w1⟩
        else FetchPaginated.loop json sc emptyOut fuel url out w1
    else some ⟨none, out, w⟩

/-- Source `SentryClient.FetchPaginated(path, out)`. -/
def SentryClient.FetchPaginated {World Body Item Out : Type} (json : JSONDecoder Body Item Out)
    (sc : SentryClient World Body) (fuel : Nat) (path : GoString) (out : List Item) (w : World) :
    Option (PaginatedResult World Item) :=
  let emptyOut := out
  let url := sc.BaseURL ++ path
  FetchPaginated.loop json sc emptyOut fuel url out w

/-- Source `SentryClient.Fetch(path, out)`: the error it returns, or the value it
has decoded into `out` when it returns nil; and the world after the request. -/
def SentryClient.Fetch {World Body Item Out : Type} (json : JSONDecoder Body Item Out)
    (sc : SentryClient World Body) (path : GoString) (out : Out) (w : World) :
    Except GoError Out × World :=
  match sc.sentryHttpClient.Do (sc.BaseURL ++ path) w with
  | (.error err, w1) => (.error err, w1)
  | (.ok res, w1) =>
    if res.StatusCode = StatusOK then
      match json.decodeOut res.Body out with
      | (.error err, _) => (.error err, w1)
      | (.ok out1, _) => (.ok out1, w1)
    else
      match json.decodeError res.Body ⟨[]⟩ with
      | (.error err, _) =>
        let errorMesage := TrimSpace (Sprintf_s_s res.Status err.Error)
        (.error (.errorsNew errorMesage), w1)
      | (.ok errResponse, _) =>
        let errorMesage := TrimSpace (Sprintf_s_s res.Status errResponse.Detail)
        (.error (.errorsNew errorMesage), w1)

end Sentry

/-! ## `handlers_query.go` -/

namespace Plugin

open Sentry

/-- Source `SentryQuery`. -/
structure SentryQuery where
  QueryType : GoString
  OrgSlug : GoString
  ProjectIds : List GoString
  Environments : List GoString
  IssuesQuery : GoString
  IssuesSort : GoString
  IssuesLimit : Int
  deriving DecidableEq, Repr

/-- A Go `time.Time`, as an instant on the time line. -/
abbrev Time := Int

/-- SDK `backend.TimeRange`. -/
structure TimeRange where
  From : Time
  To : Time
  deriving DecidableEq, Repr

/-- SDK `backend.DataQuery`, with the fields the handlers read. -/
structure DataQuery where
  RefID : GoString
  TimeRange : TimeRange
  JSON : GoString
  deriving DecidableEq, Repr

/-- Package `sentry`, `GetIssuesInput`, as `QueryData` fills it (`Sort_` is the
field `Sort`). -/
structure GetIssuesInput where
  OrganizationSlug : GoString
  ProjectIds : List GoString
  Environments : List GoString
  Query : GoString
  Sort_ : GoString
  Limit : Int
  From : Time
  To : Time
  deriving DecidableEq, Repr

/-- SDK `backend.DataResponse`. -/
structure DataResponse (Frame : Type) where
  Frames : List Frame
  Error : Option GoError
  deriving DecidableEq, Repr

/-- The client as `QueryData` sees it: it reads the field `BaseURL` and calls
the method `GetIssues`, which runs in a state of the outside world and gives the
issues, the executed query string and the error, and the next state. -/
structure Client (World Issue : Type) where
  BaseURL : GoString
  GetIssues : GetIssuesInput → World → (List Issue × GoString × Option GoError) × World

/-- The outside world together with the record of the calls made on the client,
oldest first. -/
structure Run (World : Type) where
  world : World
  calls : List GetIssuesInput
  deriving DecidableEq, Repr

/-- What `handlers_query.go` uses and does not define: `json.Unmarshal` into a
`SentryQuery`, the helpers `GetErrorResponse`, `GetFrameName` and
`UpdateFrameMeta` and the error values of the plugin package, and
`framestruct.ToDataFrame`. -/
structure PluginEnv (Issue Frame : Type) where
  Unmarshal : GoString → SentryQuery → SentryQuery × Option GoError
  GetErrorResponse : DataResponse Frame → GoString → GoError → DataResponse Frame
  ErrorInvalidOrganizationSlug : GoError
  ErrorUnknownQueryType : GoError
  GetFrameName : GoString → GoString → GoString
  ToDataFrame : GoString → List Issue → Except GoError Frame
  UpdateFrameMeta : Frame → GoString → SentryQuery → GoString → Frame

/-- The zero value of `SentryQuery`. -/
def SentryQuery.zero : SentryQuery := ⟨[], [], [], [], [], [], 0⟩

/-- Source `GetQuery(query)`. -/
def GetQuery {Issue Frame : Type} (env : PluginEnv Issue Frame) (query : DataQuery) :
    SentryQuery × Option GoError :=
  let out := SentryQuery.zero
  env.Unmarshal query.JSON out

/-- Source `QueryData(ctx, pCtx, backendQuery, client)`, the handler of one query:
its response, and the run after it. -/
def QueryData {Ctx PluginContext World Issue Frame : Type} (env : PluginEnv Issue Frame)
    (_ctx : Ctx) (_pCtx : PluginContext) (backendQuery : DataQuery) (client : Client World Issue)
    (run : Run World) : DataResponse Frame × Run World :=
  let response : DataResponse Frame := ⟨[], none⟩
  match GetQuery env backendQuery with
  | (_, some err) => (env.GetErrorResponse response [] err, run)
  | (query, none) =>
    if query.QueryType = "issues".toList then
      if query.OrgSlug = [] then
        (env.GetErrorResponse response [] env.ErrorInvalidOrganizationSlug, run)
      else
        let input : GetIssuesInput :=
          { OrganizationSlug := query.OrgSlug
            ProjectIds := query.ProjectIds
            Environments := query.Environments
            Query := query.IssuesQuery
            Sort_ := query.IssuesSort
            Limit := query.IssuesLimit
            From := backendQuery.TimeRange.From
            To := backendQuery.TimeRange.To }
        match client.GetIssues input run.world with
        | ((_, executedQueryString, some err), w1) =>
          (env.GetErrorResponse response executedQueryString err, ⟨w1, run.calls ++ [input]⟩)
        | ((issues, executedQueryString, none), w1) =>
          match env.ToDataFrame (env.GetFrameName "Issues".toList backendQuery.RefID) issues with
          | .error err =>
            (env.GetErrorResponse response executedQueryString err, ⟨w1, run.calls ++ [input]⟩)
          | .ok frame =>
            let frame1 := env.UpdateFrameMeta frame executedQueryString query client.BaseURL
            (⟨response.Frames ++ [frame1], response.Error⟩, ⟨w1, run.calls ++ [input]⟩)
    else
      (⟨response.Frames, some env.ErrorUnknownQueryType⟩, run)

/-- SDK `backend.Responses`, a Go map from reference id to response: the keys
with their values, no key twice. -/
abbrev Responses (Frame : Type) := List (GoString × DataResponse Frame)

/-- The Go map assignment `m[key] = value`. -/
def Responses.set {Frame : Type} : Responses Frame → GoString → DataResponse Frame → Responses Frame
  | [], key, value => [(key, value)]
  | (k, v) :: m, key, value =>
    if k = key then (key, value) :: m else (k, v) :: Responses.set m key value

/-- The Go map read `m[key]`, `none` for a key that is not in the map. -/
def Responses.get {Frame : Type} : Responses Frame → GoString → Option (DataResponse Frame)
  | [], _ => none
  | (k, v) :: m, key => if k = key then some v else Responses.get m key

/-- SDK `backend.QueryDataRequest`, with the fields the handler reads. -/
structure QueryDataRequest (PluginContext : Type) where
  PluginContext : PluginContext
  Queries : List DataQuery

/-- The instance `getDatasourceInstance` resolves; the handler reads its field
`sentryClient`. -/
structure DatasourceInstance (World Issue : Type) where
  sentryClient : Client World Issue

/-- Source `SentryDatasource`, with its method `getDatasourceInstance`, which is
defined in another file of the package. -/
structure SentryDatasource (Ctx PluginContext World Issue : Type) where
  getDatasourceInstance : Ctx → PluginContext → Except GoError (DatasourceInstance World Issue)

/-- The loop `for _, q := range req.Queries` of `SentryDatasource.QueryData`. -/
def SentryDatasource.QueryData.loop {Ctx PluginContext World Issue Frame : Type}
    (env : PluginEnv Issue Frame) (ctx : Ctx) (pCtx : PluginContext)
    (client : Client World Issue) :
    List DataQuery → Responses Frame → Run World → Responses Frame × Run World
  | [], responses, run => (responses, run)
  | q :: queries, responses, run =>
    let (res, run1) := QueryData env ctx pCtx q client run
    SentryDatasource.QueryData.loop env ctx pCtx client queries (responses.set q.RefID res) run1

/-- Source `SentryDatasource.QueryData(ctx, req)`: the response set and the error
it returns, and the run after it. -/
def SentryDatasource.QueryData {Ctx PluginContext World Issue Frame : Type}
    (env : PluginEnv Issue Frame) (ds : SentryDatasource Ctx PluginContext World Issue)
    (ctx : Ctx) (req : QueryDataRequest PluginContext) (run : Run World) :
    (Responses Frame × Option GoError) × Run World :=
  let response : Responses Frame := []
  match ds.getDatasourceInstance ctx req.PluginContext with
  | .error err => ((response.set "error".toList ⟨[], some err⟩, none), run)
  | .ok dsi =>
    let (response1, run1) :=
      SentryDatasource.QueryData.loop env ctx req.PluginContext dsi.sentryClient req.Queries
        response run
    ((response1, none), run1)

end Plugin

/-! ## Notions used in the statements

The `Link` headers the statements speak of, the result they expect, and the
state in which the handler of a query of a batch runs. -/

namespace Sentry

/-- The target of a segment of a `Link` header taken as a next-link: the
angle-bracketed URL that the pattern finds in it, when the segment contains the
text `next`; `none` when the segment is no next-link. -/
def nextLinkTarget (link : GoString) : Option GoString :=
  if Contains link "next".toList = true ∧ 2 ≤ (FindStringSubmatch link).length then
    some ((FindStringSubmatch link).getD 1 [])
  else none

/-- Go `strings.Join(pieces, ",")`. -/
def Join : List GoString → GoString
  | [] => []
  | [piece] => piece
  | piece :: next :: pieces => piece ++ ',' :: Join (next :: pieces)

/-- An entry `<url>; rel="rel"` of a `Link` header, after `pad` spaces. -/
structure LinkEntry where
  pad : Nat
  url : GoString
  rel : GoString
  deriving DecidableEq, Repr

/-- The text of an entry. -/
def LinkEntry.render (e : LinkEntry) : GoString :=
  List.replicate e.pad ' ' ++ '<' :: e.url ++ ">; rel=\"".toList ++ e.rel ++ "\"".toList

/-- The `Link` header made of the entries, separated by commas. -/
def renderLinks (entries : List LinkEntry) : GoString :=
  Join (entries.map LinkEntry.render)

/-- The URL of an entry is an `http://` or `https://` URL with no comma, angle
bracket or newline in it. -/
def LinkEntry.WellFormed (e : LinkEntry) : Prop :=
  (HasPrefix e.url "http://".toList = true ∨ HasPrefix e.url "https://".toList = true) ∧
    ',' ∉ e.url ∧ '<' ∉ e.url ∧ '>' ∉ e.url ∧ '\n' ∉ e.url

instance (e : LinkEntry) : Decidable e.WellFormed := by
  unfold LinkEntry.WellFormed
  infer_instance

/-- The URL of the first entry whose relation is `next` and whose URL is not
`previous`; the empty string when there is no such entry. -/
def firstNextURL (previous : GoString) : List LinkEntry → GoString
  | [] => []
  | e :: entries =>
    if e.rel = "next".toList ∧ e.url ≠ previous then e.url else firstNextURL previous entries

/-- The text that follows the status line in the error message of a response
that is not a success: the `detail` field when the body decodes as an error
object, the decode failure text otherwise. -/
def errorText {Body Item Out : Type} (json : JSONDecoder Body Item Out) (body : Body) : GoString :=
  match (json.decodeError body ⟨[]⟩).1 with
  | .ok errResponse => errResponse.Detail
  | .error err => err.Error

end Sentry

namespace Plugin

/-- The run after the handler of one query has gone through the queries of a
list, first to last. -/
def runAfter {Ctx PluginContext World Issue Frame : Type} (env : PluginEnv Issue Frame)
    (ctx : Ctx) (pCtx : PluginContext) (client : Client World Issue) :
    List DataQuery → Run World → Run World
  | [], run => run
  | q :: queries, run =>
    runAfter env ctx pCtx client queries (QueryData env ctx pCtx q client run).2

end Plugin

/-! ## Test doubles

A transport, a decoder and a plugin environment to run the embedding on
concrete inputs. -/

namespace Sentry.Double

/-- A JSON document on a body stream: an array of strings, an object with the
one field `detail`, or bytes that are not JSON, with the failure text the
decoder reports for them. -/
inductive Doc where
  | items (xs : List GoString)
  | detail (d : GoString)
  | malformed (failure : GoString)
  deriving DecidableEq, Repr

/-- A body stream: the documents not read yet. A response carries one. -/
abbrev Body := List Doc

/-- The error `io.EOF`, which a decoder returns on a stream with nothing left. -/
def EOF : GoError := .external "EOF".toList

/-- Decoding into a slice: the array replaces what the slice held. -/
def decodeItems : Body → List GoString → Except GoError (List GoString) × Body
  | [], _ => (.error EOF, [])
  | .items xs :: rest, _ => (.ok xs, rest)
  | .detail _ :: rest, _ =>
    (.error (.external "json: cannot unmarshal object into Go value of type []sentry.AnyType".toList),
      rest)
  | .malformed failure :: rest, _ => (.error (.external failure), rest)

/-- Decoding into a `SentryErrorResponse`. -/
def decodeError : Body → SentryErrorResponse → Except GoError SentryErrorResponse × Body
  | [], _ => (.error EOF, [])
  | .detail d :: rest, _ => (.ok ⟨d⟩, rest)
  | .items _ :: rest, _ =>
    (.error (.external
      "json: cannot unmarshal array into Go value of type sentry.SentryErrorResponse".toList), rest)
  | .malformed failure :: rest, _ => (.error (.external failure), rest)

/-- The decoder double; the caller's `out` of `Fetch` is a slice of strings. -/
def json : JSONDecoder Body GoString (List GoString) :=
  ⟨decodeItems, decodeItems, decodeError⟩

/-- A transport that answers from a table of pages and records the URLs it is
asked for, oldest first. -/
def transport (serve : GoString → Except GoError (Response Body)) :
    HTTPClient (List GoString) Body :=
  ⟨fun url w => (serve url, w ++ [url])⟩

/-- A client on `https://sentry.io` over a table of pages. -/
def client (serve : GoString → Except GoError (Response Body)) :
    SentryClient (List GoString) Body :=
  ⟨"https://sentry.io".toList, "acme".toList, "token".toList, transport serve⟩

/-- The `Link` header of the first of two pages. -/
def linkPage2 : GoString :=
  "<https://sentry.io/api/0/organizations/?cursor=2>; rel=\"next\"".toList

/-- Two pages, both with status 200: the first holds `["A","B"]` and links to the
second, the second holds `["C"]` and has no `Link` header. -/
def serveTwoPages (url : GoString) : Except GoError (Response Body) :=
  if url = "https://sentry.io/api/0/organizations/".toList then
    .ok ⟨200, "200 OK".toList, [("Link".toList, [linkPage2])],
      [.items ["A".toList, "B".toList]]⟩
  else if url = "https://sentry.io/api/0/organizations/?cursor=2".toList then
    .ok ⟨200, "200 OK".toList, [], [.items ["C".toList]]⟩
  else .error (.external "no such page".toList)

/-- A server that fails: status 500 and an error object, for every request. -/
def serveError (_url : GoString) : Except GoError (Response Body) :=
  .ok ⟨500, "500 Internal Server Error".toList, [], [.detail "Internal error".toList]⟩

/-- A server that refuses the token: status 403 and `detail: "Invalid token"`. -/
def serveForbidden (_url : GoString) : Except GoError (Response Body) :=
  .ok ⟨403, "403 Forbidden".toList, [], [.detail "Invalid token".toList]⟩

/-- A server that answers 201 with the array `["A"]`. -/
def serveCreated (_url : GoString) : Except GoError (Response Body) :=
  .ok ⟨201, "201 Created".toList, [], [.items ["A".toList]]⟩

/-- A server that answers 200 with the array `["A"]`. -/
def serveOK (_url : GoString) : Except GoError (Response Body) :=
  .ok ⟨200, "200 OK".toList, [], [.items ["A".toList]]⟩

/-- A response with status 200 and the given `Link` header. -/
def linked (link : GoString) : Response Body :=
  ⟨200, "200 OK".toList, [("Link".toList, [link])], [.items []]⟩

/-- The entries of the first page of the issues of the project `next-app`: the
link to the page before, then the link to the page after. -/
def entriesNextApp : List LinkEntry :=
  [⟨0, "https://sentry.io/api/0/projects/acme/next-app/issues/?cursor=0:0:1".toList,
      "previous".toList⟩,
    ⟨1, "https://sentry.io/api/0/projects/acme/next-app/issues/?cursor=0:100:0".toList,
      "next".toList⟩]

/-- The entries of the first page of the issues of the project `web`. -/
def entriesWeb : List LinkEntry :=
  [⟨0, "https://sentry.io/api/0/projects/acme/web/issues/?cursor=0:0:1".toList,
      "previous".toList⟩,
    ⟨1, "https://sentry.io/api/0/projects/acme/web/issues/?cursor=0:100:0".toList,
      "next".toList⟩]

/-- The `Link` header of a page of the organization `nextcloud`. -/
def linkNextcloud : GoString :=
  ("<https://sentry.io/api/0/organizations/nextcloud/issues/?cursor=0:0:1>; rel=\"previous\", "
    ++ "<https://sentry.io/api/0/organizations/nextcloud/issues/?cursor=0:100:0>; rel=\"next\"").toList

/-- A `Link` header whose only entry is a next-link. -/
def linkSelf : GoString :=
  "<https://sentry.io/api/0/organizations/acme/issues/?cursor=0:100:0>; rel=\"next\"".toList

end Sentry.Double

namespace Plugin.Double

open Sentry

/-- A frame: its name, its rows, and the executed query string and source URL
of its metadata. -/
structure Frame where
  Name : GoString
  Rows : List GoString
  ExecutedQueryString : GoString
  SourceURL : GoString
  deriving DecidableEq, Repr

/-- The payload `{"queryType":"issues"}`, with no organization slug. -/
def issuesNoOrg : GoString := "\x7b\"queryType\":\"issues\"\x7d".toList

/-- The payload `{"queryType":"issues","orgSlug":"acme"}`. -/
def issuesAcme : GoString := "\x7b\"queryType\":\"issues\",\"orgSlug\":\"acme\"\x7d".toList

/-- The payload `{"queryType":"stats"}`. -/
def stats : GoString := "\x7b\"queryType\":\"stats\"\x7d".toList

/-- An unmarshaller that knows the three payloads above and fails on the rest. -/
def unmarshal (raw : GoString) (out : SentryQuery) : SentryQuery × Option GoError :=
  if raw = issuesNoOrg then (⟨"issues".toList, out.OrgSlug, out.ProjectIds, out.Environments,
    out.IssuesQuery, out.IssuesSort, out.IssuesLimit⟩, none)
  else if raw = issuesAcme then (⟨"issues".toList, "acme".toList, out.ProjectIds,
    out.Environments, out.IssuesQuery, out.IssuesSort, out.IssuesLimit⟩, none)
  else if raw = stats then (⟨"stats".toList, out.OrgSlug, out.ProjectIds, out.Environments,
    out.IssuesQuery, out.IssuesSort, out.IssuesLimit⟩, none)
  else (out, some (.external "unexpected end of JSON input".toList))

/-- The plugin environment double. -/
def env : PluginEnv GoString Frame where
  Unmarshal := unmarshal
  GetErrorResponse := fun response executedQueryString err =>
    ⟨response.Frames ++ [⟨"Error".toList, [], executedQueryString, []⟩], some err⟩
  ErrorInvalidOrganizationSlug := .external "invalid or empty organization slug".toList
  ErrorUnknownQueryType := .external "unknown query type".toList
  GetFrameName := fun name refID => name ++ " (".toList ++ refID ++ ")".toList
  ToDataFrame := fun name issues => .ok ⟨name, issues, [], []⟩
  UpdateFrameMeta := fun frame executedQueryString _ baseURL =>
    ⟨frame.Name, frame.Rows, executedQueryString, baseURL⟩

/-- A client spy: the world is the number of network calls made. -/
def spy : Client Nat GoString :=
  ⟨"https://sentry.io".toList,
    fun input n => ((["ISSUE-1".toList], "/api/0/organizations/".toList ++ input.OrganizationSlug
      ++ "/issues/".toList, none), n + 1)⟩

/-- A datasource whose instance resolves to the spy. -/
def datasource : SentryDatasource Unit Unit Nat GoString :=
  ⟨fun _ _ => .ok ⟨spy⟩⟩

/-- A query with a reference id and a payload. -/
def query (refID payload : GoString) : DataQuery := ⟨refID, ⟨0, 3600⟩, payload⟩

end Plugin.Double

/-! ## Theorems about `sentry.go` -/

namespace Sentry

theorem scan_empty_or_ne (previous : GoString) (cutLinks : List GoString) :
    FindNextLink.scan previous cutLinks = [] ∨ FindNextLink.scan previous cutLinks ≠ previous := by
  induction cutLinks with
  | nil => exact Or.inl rfl
  | cons link cutLinks ih =>
    unfold FindNextLink.scan
    split
    · simp only []
      split
      · next h => exact Or.inr h.2
      · exact ih
    · exact ih

/-- C6: `FindNextLink(res, previous)` never yields the cursor just followed: its
result is the empty string or a string different from `previous`. -/
theorem FindNextLink_never_previous {Body : Type} (res : Response Body) (previous : GoString) :
    FindNextLink res previous = [] ∨ FindNextLink res previous ≠ previous := by
  unfold FindNextLink
  simp only []
  split
  · exact scan_empty_or_ne previous _
  · exact Or.inl rfl

/-- C3: on a response with a non-2xx status, `Fetch` returns an error whose
message is the trimmed `"<status line> <d>"`, where `d` is the `detail` field of
the body when the body decodes as an error object and the decode failure text
otherwise. -/
theorem Fetch_non2xx_error {World Body Item Out : Type} (json : JSONDecoder Body Item Out)
    (sc : SentryClient World Body) (path : GoString) (out : Out) (w w1 : World)
    (res : Response Body)
    (hdo : sc.sentryHttpClient.Do (sc.BaseURL ++ path) w = (.ok res, w1))
    (hstatus : ¬ (200 ≤ res.StatusCode ∧ res.StatusCode ≤ 299)) :
    ∃ err, (sc.Fetch json path out w).1 = .error err ∧
      err.Error = TrimSpace (res.Status ++ " ".toList ++ errorText json res.Body) := by
  have h200 : ¬ res.StatusCode = StatusOK := by
    intro h
    apply hstatus
    rw [h]
    decide
  unfold SentryClient.Fetch errorText
  rw [hdo]
  simp only [h200, if_false]
  rcases hdec : json.decodeError res.Body ⟨[]⟩ with ⟨r, body1⟩
  cases r with
  | error err => exact ⟨_, rfl, by simp [GoError.Error, Sprintf_s_s]⟩
  | ok errResponse => exact ⟨_, rfl, by simp [GoError.Error, Sprintf_s_s]⟩

/-- C3, the example of the specification: status `403 Forbidden` with the body
`detail: "Invalid token"` gives the message `403 Forbidden Invalid token`. -/
theorem Fetch_non2xx_error_witness :
    ¬ (200 ≤ (403 : Int) ∧ (403 : Int) ≤ 299) ∧
    ∃ err, ((Double.client Double.serveForbidden).Fetch Double.json
        "/api/0/organizations/".toList [] []).1 = .error err ∧
      err.Error = "403 Forbidden Invalid token".toList :=
  ⟨by decide,
    Fetch_non2xx_error Double.json (Double.client Double.serveForbidden)
      "/api/0/organizations/".toList [] [] _
      ⟨403, "403 Forbidden".toList, [], [.detail "Invalid token".toList]⟩ rfl (by decide)⟩

/-- C4, as the code has it: on a response with status 200, `Fetch` returns what
decoding the body into `out` gives: the decoded value and no error when the
body is valid for `out`, and the decode failure, unchanged, as its only
error. -/
theorem Fetch_status_200 {World Body Item Out : Type} (json : JSONDecoder Body Item Out)
    (sc : SentryClient World Body) (path : GoString) (out : Out) (w w1 : World)
    (res : Response Body)
    (hdo : sc.sentryHttpClient.Do (sc.BaseURL ++ path) w = (.ok res, w1))
    (hstatus : res.StatusCode = 200) :
    (∀ v, (json.decodeOut res.Body out).1 = .ok v → (sc.Fetch json path out w).1 = .ok v) ∧
    (∀ err, (sc.Fetch json path out w).1 = .error err →
      (json.decodeOut res.Body out).1 = .error err) := by
  have hfetch : (sc.Fetch json path out w).1 = (json.decodeOut res.Body out).1 := by
    unfold SentryClient.Fetch
    rw [hdo]
    simp only [hstatus, StatusOK, if_true]
    rcases hdec : json.decodeOut res.Body out with ⟨r, body1⟩
    cases r <;> rfl
  rw [hfetch]
  exact ⟨fun v h => h, fun err h => h⟩

/-- C4 on a page with status 200 and the array `["A"]`. -/
theorem Fetch_status_200_witness :
    ((Double.client Double.serveOK).Fetch Double.json "/api/0/organizations/".toList [] []).1
      = .ok ["A".toList] :=
  (Fetch_status_200 Double.json (Double.client Double.serveOK) "/api/0/organizations/".toList
    [] [] _ ⟨200, "200 OK".toList, [], [.items ["A".toList]]⟩ rfl rfl).1 _ rfl

/-- C4 fails for a 2xx status other than 200: on `201 Created` with a body that
decodes into `out`, `Fetch` returns an error. -/
theorem Fetch_status_201_is_error :
    (200 ≤ (201 : Int) ∧ (201 : Int) ≤ 299) ∧
    (Double.json.decodeOut [.items ["A".toList]] []).1 = .ok ["A".toList] ∧
    ((Double.client Double.serveCreated).Fetch Double.json "/api/0/organizations/".toList [] []).1
      = .error (.errorsNew
          "201 Created json: cannot unmarshal array into Go value of type sentry.SentryErrorResponse".toList) :=
  ⟨by decide, rfl, rfl⟩

/-- One more iteration on a page that is not a 200: the loop asks for the same
URL again. -/
theorem loop_not_ok_step {World Body Item Out : Type} (json : JSONDecoder Body Item Out)
    (sc : SentryClient World Body) (emptyOut out : List Item) (fuel : Nat) (url : GoString)
    (w w1 : World) (res : Response Body) (hurl : url ≠ [])
    (hdo : sc.sentryHttpClient.Do url w = (.ok res, w1)) (hstatus : res.StatusCode ≠ StatusOK) :
    FetchPaginated.loop json sc emptyOut (fuel + 1) url out w
      = FetchPaginated.loop json sc emptyOut fuel url out w1 := by
  rw [FetchPaginated.loop]
  simp only [hurl, ne_eq, not_false_eq_true, if_true]
  rw [hdo]
  simp only [hstatus, if_false]

/-- C2 fails: against a transport that answers every request with a page that is
not a 2xx, `FetchPaginated` does not return, whatever the number of iterations
it is given. -/
theorem FetchPaginated_non2xx_never_returns {World Body Item Out : Type}
    (json : JSONDecoder Body Item Out) (sc : SentryClient World Body) (path : GoString)
    (out : List Item)
    (hurl : sc.BaseURL ++ path ≠ [])
    (hserve : ∀ url w, ∃ res w1, sc.sentryHttpClient.Do url w = (.ok res, w1) ∧
      ¬ (200 ≤ res.StatusCode ∧ res.StatusCode ≤ 299))
    (fuel : Nat) (w : World) :
    sc.FetchPaginated json fuel path out w = none := by
  unfold SentryClient.FetchPaginated
  simp only []
  induction fuel generalizing w with
  | zero => rfl
  | succ fuel ih =>
    obtain ⟨res, w1, hdo, hstatus⟩ := hserve (sc.BaseURL ++ path) w
    have h200 : res.StatusCode ≠ StatusOK := by
      intro h
      apply hstatus
      rw [h]
      decide
    rw [loop_not_ok_step json sc out out fuel _ w w1 res hurl hdo h200]
    exact ih w1

/-- C2 on the server that answers 500 to every request: after a thousand
iterations the function has not returned. -/
theorem FetchPaginated_non2xx_never_returns_witness :
    (Double.client Double.serveError).FetchPaginated Double.json 1000
      "/api/0/organizations/".toList [] [] = none :=
  FetchPaginated_non2xx_never_returns Double.json (Double.client Double.serveError)
    "/api/0/organizations/".toList [] (by decide)
    (fun _ w => ⟨_, _, rfl, by decide⟩) 1000 []

/-- C1 fails: when the first page has status 200 and its body decodes, and a
second read of the body, now used up, fails, `FetchPaginated` returns the error
of that second read after this one request. -/
theorem FetchPaginated_second_read_fails {World Body Item Out : Type}
    (json : JSONDecoder Body Item Out) (sc : SentryClient World Body) (path : GoString)
    (out items : List Item) (fuel : Nat) (w w1 : World) (res : Response Body)
    (body1 body2 : Body) (err : GoError)
    (hurl : sc.BaseURL ++ path ≠ [])
    (hdo : sc.sentryHttpClient.Do (sc.BaseURL ++ path) w = (.ok res, w1))
    (hstatus : res.StatusCode = 200)
    (hfirst : json.decodeItems res.Body out = (.ok items, body1))
    (hsecond : json.decodeItems body1 out = (.error err, body2)) :
    sc.FetchPaginated json (fuel + 1) path out w = some ⟨some err, items, w1⟩ := by
  unfold SentryClient.FetchPaginated
  simp only []
  rw [FetchPaginated.loop]
  simp only [hurl, ne_eq, not_false_eq_true, if_true]
  rw [hdo]
  simp only [hstatus, StatusOK, if_true, hfirst, ParseBody, hsecond]

/-- C1 on the two pages of the specification's example, `["A","B"]` linking to
`["C"]`: the error `EOF` on the first page, after one request. -/
theorem FetchPaginated_second_read_fails_witness :
    (Double.client Double.serveTwoPages).FetchPaginated Double.json 3
      "/api/0/organizations/".toList [] []
      = some ⟨some Double.EOF, ["A".toList, "B".toList],
          ["https://sentry.io/api/0/organizations/".toList]⟩ :=
  FetchPaginated_second_read_fails Double.json (Double.client Double.serveTwoPages)
    "/api/0/organizations/".toList [] ["A".toList, "B".toList] 2 []
    ["https://sentry.io/api/0/organizations/".toList]
    ⟨200, "200 OK".toList, [("Link".toList, [Double.linkPage2])],
      [.items ["A".toList, "B".toList]]⟩ [] [] Double.EOF
    (by decide) rfl rfl rfl rfl

/-! ### `FindNextLink` on a header of link entries -/

theorem scan_all_previous (previous : GoString) (cutLinks : List GoString)
    (honly : ∀ link ∈ cutLinks,
      nextLinkTarget link = none ∨ nextLinkTarget link = some previous) :
    FindNextLink.scan previous cutLinks = [] := by
  induction cutLinks with
  | nil => rfl
  | cons link cutLinks ih =>
    have ih1 := ih (fun l hl => honly l (List.mem_cons_of_mem _ hl))
    unfold FindNextLink.scan
    split
    · next hcontains =>
      simp only []
      split
      · next h =>
        have htarget : nextLinkTarget link = some ((FindStringSubmatch link).getD 1 []) := by
          unfold nextLinkTarget
          rw [if_pos ⟨hcontains, h.1⟩]
        rcases honly link (List.mem_cons_self _ _) with hnone | hsome
        · rw [hnone] at htarget
          cases htarget
        · rw [hsome] at htarget
          exact absurd (Option.some.inj htarget).symm h.2
      · exact ih1
    · exact ih1

/-- C10, as the code has it: when the `Link` header contains a next-link whose
target is `previous`, and every other segment of the header is no next-link or
a next-link with that same target, `FindNextLink` returns the empty string. -/
theorem FindNextLink_self_link {Body : Type} (res : Response Body) (previous : GoString)
    (_hself : ∃ link ∈ Split (res.Header.Get "Link".toList) ',',
      nextLinkTarget link = some previous)
    (honly : ∀ link ∈ Split (res.Header.Get "Link".toList) ',',
      nextLinkTarget link = none ∨ nextLinkTarget link = some previous) :
    FindNextLink res previous = [] := by
  unfold FindNextLink
  simp only []
  split
  · exact scan_all_previous previous _ honly
  · rfl

/-- C10 on a header whose only entry is a next-link to the URL just fetched. -/
theorem FindNextLink_self_link_witness :
    (∃ link ∈ Split ((Double.linked Double.linkSelf).Header.Get "Link".toList) ',',
      nextLinkTarget link
        = some "https://sentry.io/api/0/organizations/acme/issues/?cursor=0:100:0".toList) ∧
    FindNextLink (Double.linked Double.linkSelf)
      "https://sentry.io/api/0/organizations/acme/issues/?cursor=0:100:0".toList = [] :=
  ⟨by decide,
    FindNextLink_self_link (Double.linked Double.linkSelf)
      "https://sentry.io/api/0/organizations/acme/issues/?cursor=0:100:0".toList
      (by decide) (by decide)⟩

/-- C10 fails when another segment contains `next`: the header of the
organization `nextcloud` has a next-link to the URL just fetched, and
`FindNextLink` returns the URL of the link to the page before. -/
theorem FindNextLink_self_link_other_segment :
    (∃ link ∈ Split ((Double.linked Double.linkNextcloud).Header.Get "Link".toList) ',',
      nextLinkTarget link
        = some "https://sentry.io/api/0/organizations/nextcloud/issues/?cursor=0:100:0".toList) ∧
    FindNextLink (Double.linked Double.linkNextcloud)
      "https://sentry.io/api/0/organizations/nextcloud/issues/?cursor=0:100:0".toList
      = "https://sentry.io/api/0/organizations/nextcloud/issues/?cursor=0:0:1".toList := by
  decide

theorem Split_no_sep (s : GoString) (sep : Char) (hs : sep ∉ s) : Split s sep = [s] := by
  induction s with
  | nil => rfl
  | cons c s ih =>
    have hc : c ≠ sep := fun h => hs (h ▸ List.mem_cons_self _ _)
    have hs1 : sep ∉ s := fun h => hs (List.mem_cons_of_mem _ h)
    simp [Split, hc, ih hs1]

theorem HasPrefix_append (p t : GoString) : HasPrefix (p ++ t) p = true := by
  induction p with
  | nil => cases t <;> rfl
  | cons c p ih => simp [HasPrefix, ih]

theorem HasPrefix_split (s p : GoString) (h : HasPrefix s p = true) : ∃ t, s = p ++ t := by
  induction p generalizing s with
  | nil => exact ⟨s, rfl⟩
  | cons c p ih =>
    cases s with
    | nil => simp [HasPrefix] at h
    | cons d s =>
      simp only [HasPrefix, Bool.and_eq_true, decide_eq_true_eq] at h
      obtain ⟨t, ht⟩ := ih s h.2
      exact ⟨t, by rw [h.1, ht]; rfl⟩

theorem Contains_append_left (a b sub : GoString) (h : Contains b sub = true) :
    Contains (a ++ b) sub = true := by
  induction a with
  | nil => exact h
  | cons c a ih => simp [Contains, ih]

theorem Contains_infix (a b sub : GoString) : Contains (a ++ (sub ++ b)) sub = true := by
  apply Contains_append_left
  cases hsb : sub ++ b with
  | nil =>
    have : sub = [] := (List.append_eq_nil.mp hsb).1
    subst this
    rfl
  | cons c cs =>
    rw [← hsb]
    have hp := HasPrefix_append sub b
    cases hsb2 : sub ++ b with
    | nil => rw [hsb] at hsb2; cases hsb2
    | cons d ds =>
      rw [hsb2] at hp
      simp [Contains, hp]

theorem matchDotStarGt_none (t : GoString) (ht : '>' ∉ t) : matchDotStarGt t = none := by
  induction t with
  | nil => rfl
  | cons c t ih =>
    have hc : c ≠ '>' := fun h => ht (h ▸ List.mem_cons_self _ _)
    have ht1 : '>' ∉ t := fun h => ht (List.mem_cons_of_mem _ h)
    simp [matchDotStarGt, hc, ih ht1]

theorem matchDotStarGt_url (u t : GoString) (hnl : '\n' ∉ u) (ht : '>' ∉ t) :
    matchDotStarGt (u ++ '>' :: t) = some u := by
  induction u with
  | nil =>
    have hgt : ('>' : Char) ≠ '\n' := by decide
    simp [matchDotStarGt, matchDotStarGt_none t ht]
  | cons c u ih =>
    have hc : c ≠ '\n' := fun h => hnl (h ▸ List.mem_cons_self _ _)
    have hnl1 : '\n' ∉ u := fun h => hnl (List.mem_cons_of_mem _ h)
    simp [matchDotStarGt, hc, ih hnl1]

theorem matchHere_url (url t : GoString)
    (hscheme : HasPrefix url "http://".toList = true ∨ HasPrefix url "https://".toList = true)
    (hnl : '\n' ∉ url) (ht : '>' ∉ t) :
    matchHere ('<' :: url ++ '>' :: t) = some url := by
  rcases hscheme with h | h
  · obtain ⟨u, hu⟩ := HasPrefix_split _ _ h
    subst hu
    have hnl1 : '\n' ∉ u := fun hmem => hnl (List.mem_append_right _ hmem)
    have hdot := matchDotStarGt_url u t hnl1 ht
    simp [matchHere, matchLit, matchSchemeTail, hdot]
  · obtain ⟨u, hu⟩ := HasPrefix_split _ _ h
    subst hu
    have hnl1 : '\n' ∉ u := fun hmem => hnl (List.mem_append_right _ hmem)
    have hdot := matchDotStarGt_url u t hnl1 ht
    simp [matchHere, matchLit, matchSchemeTail, hdot]

theorem findGroup_pad (pad : Nat) (s : GoString) (g : GoString) (hs : matchHere s = some g) :
    findGroup (List.replicate pad ' ' ++ s) = some g := by
  induction pad with
  | zero =>
    cases s with
    | nil => simpa [findGroup] using hs
    | cons c cs => simp [findGroup, hs]
  | succ pad ih =>
    have hspace : matchHere (' ' :: (List.replicate pad ' ' ++ s)) = none := by
      simp [matchHere, matchLit]
    simp [List.replicate_succ, findGroup, hspace, ih]

theorem FindStringSubmatch_render (e : LinkEntry) (hwf : e.WellFormed) (hrel : '>' ∉ e.rel) :
    FindStringSubmatch e.render = ['<' :: (e.url ++ ['>']), e.url] := by
  obtain ⟨hscheme, _, _, _, hnl⟩ := hwf
  have ht : '>' ∉ "; rel=\"".toList ++ e.rel ++ "\"".toList := by
    simp [hrel]
  have hhere := matchHere_url e.url _ hscheme hnl ht
  have hrender : e.render
      = List.replicate e.pad ' ' ++ ('<' :: e.url ++ '>' :: ("; rel=\"".toList ++ e.rel ++ "\"".toList)) := by
    simp [LinkEntry.render]
  rw [FindStringSubmatch, hrender, findGroup_pad _ _ _ hhere]

theorem render_no_comma (e : LinkEntry) (hwf : e.WellFormed) (hrel : ',' ∉ e.rel) :
    ',' ∉ e.render := by
  obtain ⟨_, hurl, _, _, _⟩ := hwf
  simp [LinkEntry.render, hurl, hrel]

theorem Contains_render_next (e : LinkEntry) (hrel : e.rel = "next".toList) :
    Contains e.render "next".toList = true := by
  have hrender : e.render
      = (List.replicate e.pad ' ' ++ '<' :: e.url ++ ">; rel=\"".toList)
          ++ ("next".toList ++ "\"".toList) := by
    simp [LinkEntry.render, hrel]
  rw [hrender]
  exact Contains_infix _ _ _

theorem Split_head (s : GoString) (sep : Char) :
    ∃ piece pieces rest, Split s sep = piece :: pieces ∧ s = piece ++ rest := by
  induction s with
  | nil => exact ⟨[], [], [], rfl, rfl⟩
  | cons c s ih =>
    obtain ⟨piece, pieces, rest, hsplit, hs⟩ := ih
    by_cases hc : c = sep
    · exact ⟨[], Split s sep, c :: s, by simp [Split, hc], rfl⟩
    · exact ⟨c :: piece, pieces, rest, by simp [Split, hc, hsplit], by rw [hs]; rfl⟩

theorem Split_append (a b : GoString) (sep : Char) :
    Split (a ++ sep :: b) sep = Split a sep ++ Split b sep := by
  induction a with
  | nil => simp [Split]
  | cons c a ih =>
    obtain ⟨piece, pieces, _, hsplit, _⟩ := Split_head a sep
    by_cases hc : c = sep
    · simp [Split, hc, ih]
    · simp [Split, hc, ih, hsplit]

theorem HasPrefix_append_right (a b sub : GoString) (h : HasPrefix a sub = true) :
    HasPrefix (a ++ b) sub = true := by
  obtain ⟨t, ht⟩ := HasPrefix_split a sub h
  rw [ht, List.append_assoc]
  exact HasPrefix_append sub (t ++ b)

theorem Contains_cons (c : Char) (s sub : GoString) (h : Contains s sub = true) :
    Contains (c :: s) sub = true := by
  simp [Contains, h]

theorem Contains_of_mem_Split (s sub : GoString) (sep : Char) :
    ∀ piece ∈ Split s sep, Contains piece sub = true → Contains s sub = true := by
  induction s with
  | nil =>
    intro piece hpiece hcontains
    simp only [Split, List.mem_singleton] at hpiece
    rw [← hpiece]
    exact hcontains
  | cons c s ih =>
    intro piece hpiece hcontains
    obtain ⟨first, pieces, rest, hsplit, hs⟩ := Split_head s sep
    by_cases hc : c = sep
    · simp only [Split, hc, if_true, List.mem_cons] at hpiece
      rcases hpiece with hnil | hmem
      · subst hnil
        cases sub with
        | nil => rfl
        | cons d sub => simp [Contains, HasPrefix] at hcontains
      · exact Contains_cons c s sub (ih piece hmem hcontains)
    · simp only [Split, hc, if_false, hsplit, List.mem_cons] at hpiece
      rcases hpiece with hfirst | hmem
      · subst hfirst
        simp only [Contains, Bool.or_eq_true] at hcontains
        rcases hcontains with hprefix | htail
        · have := HasPrefix_append_right (c :: first) rest sub hprefix
          rw [List.cons_append, ← hs] at this
          simp [Contains, this]
        · exact Contains_cons c s sub
            (ih first (by rw [hsplit]; exact List.mem_cons_self _ _) htail)
      · exact Contains_cons c s sub
          (ih piece (by rw [hsplit]; exact List.mem_cons_of_mem _ hmem) hcontains)

theorem scan_append_skip (previous : GoString) (skipped cutLinks : List GoString)
    (hskip : ∀ link ∈ skipped, ¬ Contains link "next".toList = true) :
    FindNextLink.scan previous (skipped ++ cutLinks) = FindNextLink.scan previous cutLinks := by
  induction skipped with
  | nil => rfl
  | cons link skipped ih =>
    rw [List.cons_append, FindNextLink.scan, if_neg (hskip link (List.mem_cons_self _ _))]
    exact ih (fun l hl => hskip l (List.mem_cons_of_mem _ hl))

/-- The scan over the segments of one entry, followed by other segments: the
entry is the result when its relation is `next` and its URL is not `previous`,
and is passed over otherwise. -/
theorem scan_entry (previous : GoString) (e : LinkEntry) (cutLinks : List GoString)
    (hwf : e.WellFormed)
    (hnext : Contains e.render "next".toList = true → e.rel = "next".toList) :
    FindNextLink.scan previous (Split e.render ',' ++ cutLinks)
      = if e.rel = "next".toList ∧ e.url ≠ previous then e.url
        else FindNextLink.scan previous cutLinks := by
  by_cases hcontains : Contains e.render "next".toList = true
  · have hrel := hnext hcontains
    have hgt : '>' ∉ e.rel := by rw [hrel]; decide
    have hcomma : ',' ∉ e.rel := by rw [hrel]; decide
    have hsub := FindStringSubmatch_render e hwf hgt
    have hlen : ([('<' :: (e.url ++ ['>'])), e.url] : List GoString).length ≥ 2 := Nat.le_refl 2
    have hget : ([('<' :: (e.url ++ ['>'])), e.url] : List GoString).getD 1 [] = e.url := rfl
    rw [Split_no_sep _ _ (render_no_comma e hwf hcomma), List.singleton_append,
      FindNextLink.scan, if_pos hcontains, hsub]
    simp only [hget]
    by_cases hurl : e.url = previous
    · rw [if_neg (fun h => h.2 hurl), if_neg (fun h => h.2 hurl)]
    · rw [if_pos ⟨hlen, hurl⟩, if_pos ⟨hrel, hurl⟩]
  · have hrel : e.rel ≠ "next".toList := fun h => hcontains (Contains_render_next e h)
    rw [if_neg (fun h => hrel h.1)]
    exact scan_append_skip previous _ _
      (fun link hlink h => hcontains (Contains_of_mem_Split _ _ _ link hlink h))

theorem scan_render (previous : GoString) (entries : List LinkEntry) (hne : entries ≠ [])
    (hwf : ∀ e ∈ entries, e.WellFormed)
    (hnext : ∀ e ∈ entries, Contains e.render "next".toList = true → e.rel = "next".toList) :
    FindNextLink.scan previous (Split (renderLinks entries) ',')
      = firstNextURL previous entries := by
  induction entries with
  | nil => exact absurd rfl hne
  | cons e entries ih =>
    have hentry := fun cutLinks => scan_entry previous e cutLinks
      (hwf e (List.mem_cons_self _ _)) (hnext e (List.mem_cons_self _ _))
    cases entries with
    | nil =>
      have h := hentry []
      rw [List.append_nil] at h
      rw [renderLinks, List.map_cons, List.map_nil, Join, h]
      rfl
    | cons e1 entries =>
      have ih1 := ih (List.cons_ne_nil _ _) (fun x hx => hwf x (List.mem_cons_of_mem _ hx))
        (fun x hx => hnext x (List.mem_cons_of_mem _ hx))
      rw [renderLinks] at ih1
      rw [renderLinks, List.map_cons, List.map_cons, Join, Split_append, hentry,
        ← List.map_cons, ih1]
      rfl

theorem renderLinks_ne_nil (e : LinkEntry) (entries : List LinkEntry) :
    renderLinks (e :: entries) ≠ [] := by
  cases entries with
  | nil => simp [renderLinks, Join, LinkEntry.render]
  | cons e1 entries => simp [renderLinks, Join, LinkEntry.render]

/-- C5, as the code has it: on a `Link` header made of comma-separated entries
`<U>; rel="r"` (each `U` an http(s) URL with no comma, angle bracket or newline)
in which only the entries of relation `next` contain the text `next`,
`FindNextLink` returns the URL of the first entry whose relation is `next` and
whose URL differs from `previous`, and the empty string when there is no such
entry; it returns the empty string when the header is absent. -/
theorem FindNextLink_link_entries {Body : Type} (res : Response Body) (previous : GoString)
    (entries : List LinkEntry)
    (hwf : ∀ e ∈ entries, e.WellFormed)
    (hnext : ∀ e ∈ entries, Contains e.render "next".toList = true → e.rel = "next".toList) :
    (res.Header.Get "Link".toList = renderLinks entries →
      FindNextLink res previous = firstNextURL previous entries) ∧
    (res.Header.lookup "Link".toList = none → FindNextLink res previous = []) := by
  constructor
  · intro hheader
    unfold FindNextLink
    rw [hheader]
    cases entries with
    | nil => rfl
    | cons e entries =>
      simp only [renderLinks_ne_nil e entries, ne_eq, not_false_eq_true, if_true]
      exact scan_render previous _ (List.cons_ne_nil _ _) hwf hnext
  · intro habsent
    unfold FindNextLink Header.Get
    rw [habsent]
    rfl

/-- C5 on the first page of the issues of the project `web`, fetched from the
issues URL: the link to the page after. -/
theorem FindNextLink_link_entries_witness :
    FindNextLink (Double.linked (renderLinks Double.entriesWeb))
      "https://sentry.io/api/0/projects/acme/web/issues/".toList
      = "https://sentry.io/api/0/projects/acme/web/issues/?cursor=0:100:0".toList :=
  (FindNextLink_link_entries (Double.linked (renderLinks Double.entriesWeb))
    "https://sentry.io/api/0/projects/acme/web/issues/".toList Double.entriesWeb
    (by decide) (by decide)).1 rfl

/-- C5 fails when a URL contains the text `next`: on the first page of the issues
of the project `next-app`, whose entries are well formed and whose entry of
relation `next` has a URL different from the one just fetched, `FindNextLink`
returns the URL of the entry of relation `previous`. -/
theorem FindNextLink_next_in_url :
    (∀ e ∈ Double.entriesNextApp, e.WellFormed) ∧
    Double.entriesNextApp.map (fun e => e.rel) = ["previous".toList, "next".toList] ∧
    FindNextLink (Double.linked (renderLinks Double.entriesNextApp))
      "https://sentry.io/api/0/projects/acme/next-app/issues/".toList
      = "https://sentry.io/api/0/projects/acme/next-app/issues/?cursor=0:0:1".toList := by
  decide

end Sentry

/-! ## Theorems about `handlers_query.go` -/

namespace Plugin

open Sentry

/-- C7: for a query that decodes with query type `"issues"` and an empty
organization slug, the handler returns the error response built from
`ErrorInvalidOrganizationSlug` with an empty executed query string, and makes no
call on the client: the run, with its record of calls, is as before. -/
theorem QueryData_issues_empty_org {Ctx PluginContext World Issue Frame : Type}
    (env : PluginEnv Issue Frame) (ctx : Ctx) (pCtx : PluginContext) (backendQuery : DataQuery)
    (client : Client World Issue) (run : Run World) (query : SentryQuery)
    (hquery : GetQuery env backendQuery = (query, none))
    (htype : query.QueryType = "issues".toList) (horg : query.OrgSlug = []) :
    QueryData env ctx pCtx backendQuery client run
      = (env.GetErrorResponse ⟨[], none⟩ [] env.ErrorInvalidOrganizationSlug, run) := by
  unfold QueryData
  rw [hquery]
  simp only [htype, horg, if_true]

/-- C7 on the payload `{"queryType":"issues"}` against the client spy: the
invalid-organization-slug response, no call recorded, no network call made. -/
theorem QueryData_issues_empty_org_witness :
    QueryData Double.env () () (Double.query "A".toList Double.issuesNoOrg) Double.spy ⟨0, []⟩
      = (⟨[⟨"Error".toList, [], [], []⟩],
          some (.external "invalid or empty organization slug".toList)⟩, ⟨0, []⟩) :=
  QueryData_issues_empty_org Double.env () () (Double.query "A".toList Double.issuesNoOrg)
    Double.spy ⟨0, []⟩ ⟨"issues".toList, [], [], [], [], [], 0⟩ rfl rfl rfl

/-- C8: for a query that decodes with a query type other than `"issues"`, the
handler returns a response with the error `ErrorUnknownQueryType` and no frame,
and makes no call on the client. -/
theorem QueryData_unknown_query_type {Ctx PluginContext World Issue Frame : Type}
    (env : PluginEnv Issue Frame) (ctx : Ctx) (pCtx : PluginContext) (backendQuery : DataQuery)
    (client : Client World Issue) (run : Run World) (query : SentryQuery)
    (hquery : GetQuery env backendQuery = (query, none))
    (htype : query.QueryType ≠ "issues".toList) :
    (QueryData env ctx pCtx backendQuery client run).1.Error = some env.ErrorUnknownQueryType ∧
    (QueryData env ctx pCtx backendQuery client run).1.Frames = [] ∧
    (QueryData env ctx pCtx backendQuery client run).2 = run := by
  unfold QueryData
  rw [hquery]
  simp only [htype, if_false]
  exact ⟨trivial, trivial, trivial⟩

/-- C8 on the payload `{"queryType":"stats"}` against the client spy. -/
theorem QueryData_unknown_query_type_witness :
    (QueryData Double.env () () (Double.query "A".toList Double.stats) Double.spy ⟨0, []⟩).1.Error
      = some (.external "unknown query type".toList) ∧
    (QueryData Double.env () () (Double.query "A".toList Double.stats) Double.spy ⟨0, []⟩).1.Frames
      = [] ∧
    (QueryData Double.env () () (Double.query "A".toList Double.stats) Double.spy ⟨0, []⟩).2
      = ⟨0, []⟩ :=
  QueryData_unknown_query_type Double.env () () (Double.query "A".toList Double.stats)
    Double.spy ⟨0, []⟩ ⟨"stats".toList, [], [], [], [], [], 0⟩ rfl (by decide)

theorem Responses.get_set_self {Frame : Type} (m : Responses Frame) (key : GoString)
    (value : DataResponse Frame) : (m.set key value).get key = some value := by
  induction m with
  | nil => simp [Responses.set, Responses.get]
  | cons kv m ih =>
    obtain ⟨k, v⟩ := kv
    by_cases h : k = key
    · simp [Responses.set, Responses.get, h]
    · simp [Responses.set, Responses.get, h, ih]

theorem Responses.get_set_ne {Frame : Type} (m : Responses Frame) (key other : GoString)
    (value : DataResponse Frame) (hne : key ≠ other) :
    (m.set key value).get other = m.get other := by
  induction m with
  | nil => simp [Responses.set, Responses.get, hne]
  | cons kv m ih =>
    obtain ⟨k, v⟩ := kv
    by_cases h : k = key
    · subst h
      simp [Responses.set, Responses.get, hne]
    · by_cases h2 : k = other
      · subst h2
        simp [Responses.set, Responses.get, h]
      · simp [Responses.set, Responses.get, h, h2, ih]

theorem Responses.length_set_new {Frame : Type} (m : Responses Frame) (key : GoString)
    (value : DataResponse Frame) (hnew : m.get key = none) :
    (m.set key value).length = m.length + 1 := by
  induction m with
  | nil => simp [Responses.set]
  | cons kv m ih =>
    obtain ⟨k, v⟩ := kv
    by_cases h : k = key
    · simp [Responses.get, h] at hnew
    · simp only [Responses.get, h, if_false] at hnew
      simp [Responses.set, h, ih hnew]

/-- The loop over the queries of a batch with pairwise distinct reference ids,
none of them in the map yet: it adds one entry for each query, leaves the other
keys alone, and stores under each reference id the response of the handler, run
after the queries before it. -/
theorem loop_distinct {Ctx PluginContext World Issue Frame : Type} (env : PluginEnv Issue Frame)
    (ctx : Ctx) (pCtx : PluginContext) (client : Client World Issue) (queries : List DataQuery) :
    ∀ (m : Responses Frame) (run : Run World),
      (queries.map (fun q => q.RefID)).Nodup →
      (∀ q ∈ queries, m.get q.RefID = none) →
      (SentryDatasource.QueryData.loop env ctx pCtx client queries m run).1.length
          = m.length + queries.length ∧
      (SentryDatasource.QueryData.loop env ctx pCtx client queries m run).2
          = runAfter env ctx pCtx client queries run ∧
      (∀ key, (∀ q ∈ queries, q.RefID ≠ key) →
        (SentryDatasource.QueryData.loop env ctx pCtx client queries m run).1.get key
          = m.get key) ∧
      (∀ (i : Nat) (hi : i < queries.length),
        (SentryDatasource.QueryData.loop env ctx pCtx client queries m run).1.get queries[i].RefID
          = some (QueryData env ctx pCtx queries[i] client
              (runAfter env ctx pCtx client (queries.take i) run)).1) := by
  induction queries with
  | nil =>
    intro m run _ _
    refine ⟨rfl, rfl, fun _ _ => rfl, ?_⟩
    intro i hi
    simp at hi
  | cons q queries ih =>
    intro m run hnodup hfresh
    rw [List.map_cons, List.nodup_cons] at hnodup
    obtain ⟨hq, hnodup⟩ := hnodup
    have hne : ∀ q1 ∈ queries, q.RefID ≠ q1.RefID := by
      intro q1 hq1 heq
      exact hq (List.mem_map.mpr ⟨q1, hq1, heq.symm⟩)
    have hfresh1 : ∀ q1 ∈ queries,
        (m.set q.RefID (QueryData env ctx pCtx q client run).1).get q1.RefID = none := by
      intro q1 hq1
      rw [Responses.get_set_ne _ _ _ _ (hne q1 hq1)]
      exact hfresh q1 (List.mem_cons_of_mem _ hq1)
    obtain ⟨hlen, hrun, hkeep, hget⟩ :=
      ih (m.set q.RefID (QueryData env ctx pCtx q client run).1)
        (QueryData env ctx pCtx q client run).2 hnodup hfresh1
    have hloop : SentryDatasource.QueryData.loop env ctx pCtx client (q :: queries) m run
        = SentryDatasource.QueryData.loop env ctx pCtx client queries
            (m.set q.RefID (QueryData env ctx pCtx q client run).1)
            (QueryData env ctx pCtx q client run).2 := rfl
    rw [hloop]
    refine ⟨?_, ?_, ?_, ?_⟩
    · rw [hlen, Responses.length_set_new _ _ _ (hfresh q (List.mem_cons_self _ _))]
      simp only [List.length_cons]
      omega
    · rw [hrun]
      rfl
    · intro key hkey
      rw [hkeep key (fun q1 hq1 => hkey q1 (List.mem_cons_of_mem _ hq1))]
      exact Responses.get_set_ne _ _ _ _ (hkey q (List.mem_cons_self _ _))
    · intro i hi
      cases i with
      | zero =>
        simp only [List.getElem_cons_zero, List.take_zero]
        rw [hkeep q.RefID (fun q1 hq1 h => hne q1 hq1 h.symm)]
        exact Responses.get_set_self _ _ _
      | succ i =>
        simp only [List.getElem_cons_succ, List.take_succ_cons]
        exact hget i (by simpa using hi)

/-- C9, for a batch with pairwise distinct reference ids: when the instance of
the datasource resolves, `SentryDatasource.QueryData` returns no error and a response
set with as many entries as there are queries, and under the reference id of
each query the response of the handler for that query, run after the queries
before it in the batch. -/
theorem SentryDatasource_QueryData_distinct {Ctx PluginContext World Issue Frame : Type}
    (env : PluginEnv Issue Frame) (ds : SentryDatasource Ctx PluginContext World Issue)
    (ctx : Ctx) (req : QueryDataRequest PluginContext) (run : Run World)
    (dsi : DatasourceInstance World Issue)
    (hresolve : ds.getDatasourceInstance ctx req.PluginContext = .ok dsi)
    (hdistinct : (req.Queries.map (fun q => q.RefID)).Nodup) :
    (ds.QueryData env ctx req run).1.2 = none ∧
    (ds.QueryData env ctx req run).1.1.length = req.Queries.length ∧
    ∀ (i : Nat) (hi : i < req.Queries.length),
      (ds.QueryData env ctx req run).1.1.get req.Queries[i].RefID
        = some (QueryData env ctx req.PluginContext req.Queries[i] dsi.sentryClient
            (runAfter env ctx req.PluginContext dsi.sentryClient
              (req.Queries.take i) run)).1 := by
  obtain ⟨hlen, _, _, hget⟩ :=
    loop_distinct env ctx req.PluginContext dsi.sentryClient req.Queries [] run
      hdistinct (fun _ _ => rfl)
  have hqd : ds.QueryData env ctx req run
      = (((SentryDatasource.QueryData.loop env ctx req.PluginContext dsi.sentryClient
            req.Queries [] run).1, none),
          (SentryDatasource.QueryData.loop env ctx req.PluginContext
            dsi.sentryClient req.Queries [] run).2) := by
    unfold SentryDatasource.QueryData
    rw [hresolve]
  rw [hqd]
  refine ⟨rfl, ?_, hget⟩
  simpa using hlen

/-- C9 on a batch of two queries, `A` (issues of `acme`) and `B` (an unknown
query type): two entries, the frame of `A` under `A`, the error under `B`. -/
theorem SentryDatasource_QueryData_distinct_witness :
    (Double.datasource.QueryData Double.env ()
      ⟨(), [Double.query "A".toList Double.issuesAcme, Double.query "B".toList Double.stats]⟩
      ⟨0, []⟩).1.1.length = 2 :=
  (SentryDatasource_QueryData_distinct Double.env Double.datasource ()
    ⟨(), [Double.query "A".toList Double.issuesAcme, Double.query "B".toList Double.stats]⟩
    ⟨0, []⟩ ⟨Double.spy⟩ rfl (by decide)).2.1

/-- C9 fails for a batch in which two queries carry the same reference id: the
datasource instance resolves, the batch holds two queries, and the response set
holds one entry. -/
theorem SentryDatasource_QueryData_same_RefID :
    Double.datasource.getDatasourceInstance () () = .ok ⟨Double.spy⟩ ∧
    [Double.query "A".toList Double.issuesAcme, Double.query "A".toList Double.stats].length = 2 ∧
    (Double.datasource.QueryData Double.env ()
      ⟨(), [Double.query "A".toList Double.issuesAcme, Double.query "A".toList Double.stats]⟩
      ⟨0, []⟩).1.1.length = 1 :=
  ⟨rfl, rfl, by decide⟩

end Plugin
